import Mathlib

/-!
Verification development for the scheduling & entitlement core of the
django-celery tutoring back office.

The development shallowly embeds the Python source:

* `Extevents` — the external-calendar sync safety circuit-breaker
  (tested by `extevents/tests/unit/tests_safety.py`).
* `Teachers` — working-hours resolution and the free-slot finder
  (tested by `teachers/tests_unit.py`).
* `Hub` — the models of `hub/models.py`: `Subscription` (provisioning and
  active-flag cascade) and `Class` (the lesson-entitlement scheduling state
  machine), with the relational store modelled explicitly.

Machine integers do not occur: counts and prices are `Nat`/`Int`; all
times are minutes.
-/

namespace Extevents

/-- Modelled from the spec: `extevents.models.ExternalEvent` is not among the
sources (only its tests are); per the spec the only attribute relevant to the
circuit-breaker is the optional parent link marking recurring-series
membership (a parent event represents a recurring rule; children are its
instances). -/
structure ExternalEvent where
  parent : Option Nat
deriving Repr, DecidableEq

/-- Count of events that have no parent link (the non-recurring portion). -/
def nonRecurring (events : List ExternalEvent) : Nat :=
  (events.filter (fun e => e.parent.isNone)).length

/-- Modelled from the spec: `ExternalEventSource.__is_safe` of
`extevents.models` is not among the sources. Policy per the spec: if
`len(newEvents) >= len(oldEvents)`, safe; if `len(newEvents) == 0` and
`len(oldEvents) > 0`, unsafe; otherwise safe iff
`len(newEvents) * 2 >= nonRecurringOld`. -/
def is_safe (oldEvents newEvents : List ExternalEvent) : Bool :=
  if newEvents.length ≥ oldEvents.length then
    true
  else if newEvents.length = 0 ∧ oldEvents.length > 0 then
    false
  else
    decide (newEvents.length * 2 ≥ nonRecurring oldEvents)

/-- A plain event: no parent link. -/
def plainEvent : ExternalEvent := { parent := none }

/-- A recurring-series child of the event with pk `k`. -/
def childOf (k : Nat) : ExternalEvent := { parent := some k }

end Extevents

namespace Teachers

/-- Modelled from the spec: `teachers.models.WorkingHours` is not among the
sources (only `teachers/tests_unit.py` is). A template holds a weekday
(0–6) and start/end times of day, here in minutes since midnight. -/
structure WorkingHours where
  weekday : Nat
  start : Nat
  «end» : Nat
deriving Repr, DecidableEq

/-- Modelled from the spec: `WorkingHours.objects.for_date` resolves the
template whose weekday matches the date's weekday, returning `none`
(never raising) when no template matches. A teacher is represented by their
list of templates and a date by its weekday. -/
def WorkingHours.for_date (hours : List WorkingHours) (weekday : Nat) :
    Option WorkingHours :=
  hours.find? (fun h => h.weekday == weekday)

/-- Modelled from the spec: a calendar entry of `timeline.models`, reduced to
the half-open busy interval `[start, end)` in minutes that the free-slot
finder subtracts. -/
structure TimelineEntry where
  start : Nat
  «end» : Nat
deriving Repr, DecidableEq

/-- Half-open interval overlap test from the spec:
`a.start < b.end and b.start < a.end`. -/
def overlaps (aStart aEnd bStart bEnd : Nat) : Bool :=
  aStart < bEnd && bStart < aEnd

/-- Modelled from the spec: slot-start enumeration of the free-slot finder —
emit `slot`, `slot + g`, … while strictly below `e`. -/
def slot_list (slot e g : Nat) : List Nat :=
  if _h : 0 < g ∧ slot < e then
    slot :: slot_list (slot + g) e g
  else
    []
termination_by e - slot
decreasing_by omega

/-- Modelled from the spec: `Teacher.find_free_slots(date, period)` without a
lesson-type filter. Resolve working hours for the weekday (`none` when the
teacher does not work that day); enumerate period-spaced slot starts in
`[start, end)`; keep a slot iff its interval `[t, t + period)` overlaps no
existing calendar entry of that teacher and day. -/
def find_free_slots (hours : List WorkingHours) (entries : List TimelineEntry)
    (weekday : Nat) (period : Nat) : Option (List Nat) :=
  match WorkingHours.for_date hours weekday with
  | none => none
  | some wh =>
      some ((slot_list wh.start wh.«end» period).filter
        (fun t => entries.all
          (fun en => !(overlaps t (t + period) en.start en.«end»))))

end Teachers

namespace Hub

/-- Model of `timeline.models.Entry` as referenced by `hub/models.py`. The entry model
itself is not among the sources, so the attributes the hub code consults are
carried as plain fields: `is_free` and `is_fitting_working_hours` stand for
the results of the entry methods of the same names, per the spec ("not free:
already has an incompatible attachment"; "does not fit within the teacher's
working hours"). `pk` is `none` until the row is first persisted. -/
structure TimelineEntry where
  pk : Option Nat
  teacher : Nat
  lesson_type : Nat
  is_free : Bool
  allow_besides_working_hours : Bool
  is_fitting_working_hours : Bool
deriving Repr, DecidableEq

/-- A lesson as referenced through the generic foreign key
(`lesson_type` content type + `lesson_id`). -/
structure Lesson where
  lesson_type : Nat
  lesson_id : Nat
deriving Repr, DecidableEq

/-- The product of a subscription: per the product catalog interface, the
lesson units it grants, grouped by lesson type (`product.LESSONS` holds the
group names, `getattr(product, name).all()` holds each group's lessons). -/
structure Product where
  LESSONS : List (List Lesson)
deriving Repr, DecidableEq

/-- Model of `hub.models.Subscription` (fields of it and of its abstract parent
`BuyableProduct` that the hub code reads): `active` is the 0/1
`SmallIntegerField`, `buy_price` the purchase price, `product` the generic
product reference. `pk` is `none` until first persisted. -/
structure Subscription where
  pk : Option Nat
  customer : Nat
  active : Nat
  buy_price : Int
  product : Product
deriving Repr, DecidableEq

/-- Model of `hub.models.Class` — one purchased lesson entitlement. `timeline_entry`
holds the referenced entry by value (`none` = not attached);
`subscription` holds the owning subscription's pk, if any. -/
structure Class where
  pk : Option Nat
  customer : Nat
  active : Nat
  buy_price : Int
  buy_source : Nat
  is_scheduled : Bool
  lesson_type : Nat
  lesson_id : Nat
  timeline_entry : Option TimelineEntry
  subscription : Option Nat
deriving Repr, DecidableEq

/-- Model of `hub.exceptions`: the two business-rule exceptions raised by the
scheduling state machine. -/
inductive HubException where
  | CannotBeScheduled
  | CannotBeUnscheduled
deriving Repr, DecidableEq

/-- The relational store: persisted rows of each model plus the next
primary key the database will hand out. -/
structure DB where
  nextPk : Nat
  entries : List TimelineEntry
  classes : List Class
  subscriptions : List Subscription
deriving Repr, DecidableEq

/-- Stock Django `Model.save()` for a timeline entry: INSERT assigning the
next pk when the instance has none, UPDATE of the matching row otherwise. -/
def DB.saveEntryRow (db : DB) (e : TimelineEntry) : DB × TimelineEntry :=
  match e.pk with
  | none =>
      let saved := { e with pk := some db.nextPk }
      ({ db with nextPk := db.nextPk + 1, entries := db.entries ++ [saved] },
       saved)
  | some k =>
      ({ db with entries := db.entries.map (fun x => if x.pk = some k then e else x) },
       e)

/-- Stock Django `Model.save()` for a class row. -/
def DB.saveClassRow (db : DB) (c : Class) : DB × Class :=
  match c.pk with
  | none =>
      let saved := { c with pk := some db.nextPk }
      ({ db with nextPk := db.nextPk + 1, classes := db.classes ++ [saved] },
       saved)
  | some k =>
      ({ db with classes := db.classes.map (fun x => if x.pk = some k then c else x) },
       c)

/-- Stock Django `Model.save()` for a subscription row. -/
def DB.saveSubscriptionRow (db : DB) (s : Subscription) : DB × Subscription :=
  match s.pk with
  | none =>
      let saved := { s with pk := some db.nextPk }
      ({ db with nextPk := db.nextPk + 1,
                 subscriptions := db.subscriptions ++ [saved] }, saved)
  | some k =>
      ({ db with subscriptions :=
          db.subscriptions.map (fun x => if x.pk = some k then s else x) }, s)

/-- Translation of `Class.save` of `hub/models.py`: if a timeline entry is assigned, first
persist it when it is new (created in the current iteration) and set
`is_scheduled` to `True`, else set `is_scheduled` to `False`; then
`super().save()`; finally re-save the attached entry so that saving only the
class also persists its entry. -/
def Class.save (db : DB) (c : Class) : DB × Class :=
  let step1 : DB × Class :=
    match c.timeline_entry with
    | some entry =>
        if entry.pk.isNone then
          let (db', saved) := db.saveEntryRow entry
          (db', { c with timeline_entry := some saved, is_scheduled := true })
        else
          (db, { c with is_scheduled := true })
    | none => (db, { c with is_scheduled := false })
  let (db2, c2) := step1.1.saveClassRow step1.2
  match c2.timeline_entry with
  | some entry => ((db2.saveEntryRow entry).1, c2)
  | none => (db2, c2)

/-- Translation of `Class.can_be_scheduled` of `hub/models.py`. -/
def Class.can_be_scheduled (c : Class) (entry : TimelineEntry) : Bool :=
  if c.is_scheduled then
    false
  else if !entry.is_free then
    false
  else if c.lesson_type ≠ entry.lesson_type then
    false
  else if !entry.allow_besides_working_hours && !entry.is_fitting_working_hours then
    false
  else
    true

/-- Translation of `Class.assign_entry` of `hub/models.py`: raise `CannotBeScheduled` when
the checks fail, otherwise set the in-memory `timeline_entry` reference. -/
def Class.assign_entry (c : Class) (entry : TimelineEntry) :
    Except HubException Class :=
  if !c.can_be_scheduled entry then
    Except.error HubException.CannotBeScheduled
  else
    Except.ok { c with timeline_entry := some entry }

/-- A caller performing the full assignment step — `c.assign_entry(entry)`
followed by `c.save()` — as spec §4.4's `assign` describes it: on success the
entry is attached, persisted (first, when new) and the entitlement marked
scheduled. -/
def assign_and_save (db : DB) (c : Class) (entry : TimelineEntry) :
    Except HubException (DB × Class) :=
  (c.assign_entry entry).map (fun c2 => c2.save db)

/-- The same caller observing the exception: when `assign_entry` raises, the
in-memory entitlement and the store are exactly as before the call. -/
def try_assign (db : DB) (c : Class) (entry : TimelineEntry) :
    DB × Class × Option HubException :=
  match c.assign_entry entry with
  | Except.error err => (db, c, some err)
  | Except.ok c2 =>
      let (db2, c3) := c2.save db
      (db2, c3, none)

/-- Translation of `Class.unschedule` of `hub/models.py`: raise `CannotBeUnscheduled` when
no entry is attached; otherwise `entry.classes.remove(self)` (a bulk UPDATE
clearing the foreign key on the store row whose pk is `self.pk` within the
entry's related set), clear the in-memory reference, and `entry.save()` —
the entry row is updated, never deleted. -/
def Class.unschedule (db : DB) (c : Class) : Except HubException (DB × Class) :=
  match c.timeline_entry with
  | none => Except.error HubException.CannotBeUnscheduled
  | some entry =>
      let db1 : DB :=
        { db with classes := db.classes.map (fun x =>
            if x.pk.isSome ∧ x.pk = c.pk ∧
               (x.timeline_entry.map TimelineEntry.pk) = some entry.pk then
              { x with timeline_entry := none }
            else x) }
      let c1 := { c with timeline_entry := none }
      Except.ok ((db1.saveEntryRow entry).1, c1)

/-- The `Class(lesson=lesson, subscription=self, customer=self.customer,
buy_price=self.buy_price, buy_source=1)` constructor call inside
`__add_lessons_to_user`; the remaining fields carry their model defaults
(`active = 1`, `is_scheduled = False`, no pk, no timeline entry). -/
def Subscription.newClass (s : Subscription) (lesson : Lesson) : Class :=
  { pk := none,
    customer := s.customer,
    active := 1,
    buy_price := s.buy_price,
    buy_source := 1,
    is_scheduled := false,
    lesson_type := lesson.lesson_type,
    lesson_id := lesson.lesson_id,
    timeline_entry := none,
    subscription := s.pk }

/-- Translation of `Subscription.__add_lessons_to_user`: for every lesson group of the
product and every lesson in it, create a `Class` bought by this subscription
and save it. -/
def Subscription.add_lessons_to_user (s : Subscription) (db : DB) : DB :=
  s.product.LESSONS.foldl (fun dbAcc lessons =>
    lessons.foldl (fun dbAcc2 lesson =>
      (Class.save dbAcc2 (s.newClass lesson)).1) dbAcc) db

/-- Translation of `Subscription.__update_classes`: fetch the previously stored row
(`Subscription.objects.get(pk=self.pk)`, `none` models `DoesNotExist`);
when its active flag differs from the instance's, copy the instance's flag
onto every class linked to this subscription and save each. -/
def Subscription.update_classes (s : Subscription) (db : DB) : Option DB :=
  match db.subscriptions.find? (fun x => x.pk == s.pk) with
  | none => none
  | some orig =>
      if orig.active ≠ s.active then
        some ((db.classes.filter (fun c => c.subscription == s.pk)).foldl
          (fun dbAcc lesson =>
            (Class.save dbAcc { lesson with active := s.active }).1) db)
      else
        some db

/-- Translation of `Subscription.save` of `hub/models.py`: remember whether the instance is
new (no pk); when it is not, run `__update_classes`; `super().save()`; when
it is new, run `__add_lessons_to_user`. -/
def Subscription.save (db : DB) (s : Subscription) :
    Option (DB × Subscription) :=
  let is_new := s.pk.isNone
  let step1 : Option DB := if is_new then some db else s.update_classes db
  match step1 with
  | none => none
  | some db1 =>
      let (db2, s2) := db1.saveSubscriptionRow s
      if is_new then
        some (s2.add_lessons_to_user db2, s2)
      else
        some (db2, s2)

/-- A class row as the store keeps it between operations: it has a pk, its
`is_scheduled` flag agrees with the presence of a timeline entry (the
invariant `Class.save` maintains) and any attached entry has been
persisted. -/
abbrev goodClass (c : Class) : Prop :=
  c.pk.isSome = true ∧ c.is_scheduled = c.timeline_entry.isSome ∧
    c.timeline_entry.all (fun e => e.pk.isSome) = true

/-- Store well-formedness: every class row is `goodClass` and class pks are
pairwise distinct. -/
abbrev DB.WF (db : DB) : Prop :=
  (∀ c ∈ db.classes, goodClass c) ∧ (db.classes.map Class.pk).Nodup

/-- The class row `__add_lessons_to_user` produces for `lesson` when the
database hands out pk `k`. -/
def provisionRow (s : Subscription) (k : Nat) (lesson : Lesson) : Class :=
  { s.newClass lesson with pk := some k }

/-- The rows provisioning appends for a list of lesson units, given the
first pk the database will hand out. -/
def provisionRows (s : Subscription) : Nat → List Lesson → List Class
  | _, [] => []
  | k, lesson :: rest => provisionRow s k lesson :: provisionRows s (k + 1) rest

/-- All lesson units of a product, in provisioning order. -/
def Product.lessonUnits (p : Product) : List Lesson :=
  p.LESSONS.flatten

/-- An empty store, used by the concrete witnesses. -/
def emptyDB : DB :=
  { nextPk := 1, entries := [], classes := [], subscriptions := [] }

/-- A free, matching, not-yet-persisted timeline entry (witness data). -/
def sampleEntry : TimelineEntry :=
  { pk := none, teacher := 1, lesson_type := 5, is_free := true,
    allow_besides_working_hours := false, is_fitting_working_hours := true }

/-- An unscheduled single-purchase entitlement (witness data). -/
def sampleClass : Class :=
  { pk := none, customer := 7, active := 1, buy_price := 100, buy_source := 0,
    is_scheduled := false, lesson_type := 5, lesson_id := 3,
    timeline_entry := none, subscription := none }

/-- An entitlement already marked scheduled (witness data). -/
def scheduledSample : Class :=
  { sampleClass with is_scheduled := true }

/-- A two-group product granting three lesson units (witness data). -/
def sampleProduct : Product :=
  { LESSONS := [[{ lesson_type := 5, lesson_id := 1 },
                 { lesson_type := 5, lesson_id := 2 }],
                [{ lesson_type := 6, lesson_id := 3 }]] }

/-- A not-yet-persisted subscription over `sampleProduct` (witness data). -/
def sampleSub : Subscription :=
  { pk := none, customer := 7, active := 1, buy_price := 100,
    product := sampleProduct }

/-- The persisted copy of a subscription (witness data). -/
def storedSub : Subscription :=
  { sampleSub with pk := some 1 }

/-- A store holding `storedSub`, one entitlement linked to it and one
independently purchased entitlement (witness data). -/
def cascadeDB : DB :=
  { nextPk := 4, entries := [],
    classes :=
      [{ pk := some 2, customer := 7, active := 1, buy_price := 100,
         buy_source := 1, is_scheduled := false, lesson_type := 5,
         lesson_id := 1, timeline_entry := none, subscription := some 1 },
       { pk := some 3, customer := 8, active := 1, buy_price := 50,
         buy_source := 0, is_scheduled := false, lesson_type := 5,
         lesson_id := 2, timeline_entry := none, subscription := none }],
    subscriptions := [storedSub] }

/-- A persisted timeline entry attached to `attachedClass` (witness data). -/
def attachedEntry : TimelineEntry :=
  { pk := some 9, teacher := 1, lesson_type := 5, is_free := false,
    allow_besides_working_hours := false, is_fitting_working_hours := true }

/-- A scheduled entitlement holding `attachedEntry` (witness data). -/
def attachedClass : Class :=
  { sampleClass with
      pk := some 2, is_scheduled := true,
      timeline_entry := some attachedEntry }

/-- A store holding `attachedClass` and its entry (witness data). -/
def scheduledDB : DB :=
  { nextPk := 10, entries := [attachedEntry], classes := [attachedClass],
    subscriptions := [] }

end Hub

namespace Extevents

/-- C1: the sync-safety circuit-breaker `isSafe(oldEvents, newEvents)`
returns, for every pair of event lists, `true` when
`len(newEvents) >= len(oldEvents)`; `false` when `len(newEvents) == 0` and
`len(oldEvents) > 0`; and otherwise `true` iff `len(newEvents) * 2` is at
least the count of `oldEvents` with no parent link. In particular 10 old vs
8 new is safe, 12 old of which 2 are non-recurring vs 2 new is safe, 10 old
vs 0 new is unsafe, and 10 old vs 3 new is unsafe. -/
theorem is_safe_spec :
    (∀ oldEvents newEvents : List ExternalEvent,
        newEvents.length ≥ oldEvents.length →
          is_safe oldEvents newEvents = true) ∧
    (∀ oldEvents newEvents : List ExternalEvent,
        newEvents.length = 0 → oldEvents.length > 0 →
          is_safe oldEvents newEvents = false) ∧
    (∀ oldEvents newEvents : List ExternalEvent,
        newEvents.length < oldEvents.length → newEvents.length ≠ 0 →
          (is_safe oldEvents newEvents = true ↔
            newEvents.length * 2 ≥ nonRecurring oldEvents)) ∧
    is_safe (List.replicate 10 plainEvent) (List.replicate 8 plainEvent) = true ∧
    is_safe (plainEvent :: plainEvent :: List.replicate 10 (childOf 2))
      (List.replicate 2 plainEvent) = true ∧
    is_safe (List.replicate 10 plainEvent) [] = false ∧
    is_safe (List.replicate 10 plainEvent) (List.replicate 3 plainEvent) = false := by
  refine ⟨?_, ?_, ?_, by decide, by decide, by decide, by decide⟩
  · intro o n h
    simp only [is_safe]
    rw [if_pos h]
  · intro o n h0 hpos
    simp only [is_safe]
    rw [if_neg (by omega), if_pos ⟨h0, hpos⟩]
  · intro o n hlt hne
    simp only [is_safe]
    rw [if_neg (by omega), if_neg (fun h => hne h.1)]
    simp

/-- Witness for C1 at the concrete 10-old-vs-3-new input. -/
theorem is_safe_spec_witness :
    is_safe (List.replicate 10 plainEvent) (List.replicate 3 plainEvent) = false := by
  have h := is_safe_spec.2.2.1 (List.replicate 10 plainEvent)
    (List.replicate 3 plainEvent) (by decide) (by decide)
  revert h
  decide

end Extevents

namespace Teachers

theorem slot_list_stop (s e g : Nat) (h : ¬(0 < g ∧ s < e)) :
    slot_list s e g = [] := by
  rw [slot_list]
  simp [h]

theorem slot_list_step (s e g : Nat) (hg : 0 < g) (hlt : s < e) :
    slot_list s e g = s :: slot_list (s + g) e g := by
  conv_lhs => rw [slot_list]
  rw [dif_pos ⟨hg, hlt⟩]

theorem slot_list_eq_map (g : Nat) (hg : 0 < g) :
    ∀ (fuel s e : Nat), e - s ≤ fuel →
      slot_list s e g =
        (List.range ((e - s + g - 1) / g)).map (fun i => s + i * g) := by
  intro fuel
  induction fuel with
  | zero =>
      intro s e hle
      rw [slot_list_stop s e g (fun h => by omega)]
      have h0 : e - s + g - 1 = g - 1 := by omega
      rw [h0, Nat.div_eq_of_lt (by omega)]
      simp
  | succ fuel ih =>
      intro s e hle
      by_cases hlt : s < e
      · rw [slot_list_step s e g hg hlt, ih (s + g) e (by omega)]
        have hn : (e - s + g - 1) / g = (e - (s + g) + g - 1) / g + 1 := by
          have e1 : e - s + g - 1 = (e - s - 1) + g := by omega
          rw [e1, Nat.add_div_right _ hg]
          congr 1
          rcases le_or_lt g (e - s) with hge | hlt2
          · have e2 : e - (s + g) + g - 1 = e - s - 1 := by omega
            rw [e2]
          · have e2 : e - (s + g) + g - 1 = g - 1 := by omega
            rw [e2, Nat.div_eq_of_lt (by omega), Nat.div_eq_of_lt (by omega)]
        rw [hn, List.range_succ_eq_map, List.map_cons, List.map_map]
        simp only [Nat.zero_mul, Nat.add_zero]
        congr 1
        apply List.map_congr_left
        intro i _
        simp only [Function.comp_apply, Nat.succ_eq_add_one]
        ring
      · rw [slot_list_stop s e g (fun h => hlt h.2)]
        have h0 : e - s + g - 1 = g - 1 := by omega
        rw [h0, Nat.div_eq_of_lt (by omega)]
        simp

theorem slot_list_closed (s e g : Nat) (hg : 0 < g) :
    slot_list s e g =
      (List.range ((e - s + g - 1) / g)).map (fun i => s + i * g) :=
  slot_list_eq_map g hg (e - s) s e le_rfl

theorem find_free_slots_no_entries (hours : List WorkingHours) (wd g : Nat)
    (wh : WorkingHours) (hfd : WorkingHours.for_date hours wd = some wh) :
    find_free_slots hours [] wd g = some (slot_list wh.start wh.«end» g) := by
  simp [find_free_slots, hfd]

theorem slot_list_concrete_30 : slot_list 780 900 30 = [780, 810, 840, 870] := by
  rw [slot_list_closed _ _ _ (by norm_num)]
  decide

theorem slot_list_concrete_20 :
    slot_list 780 900 20 = [780, 800, 820, 840, 860, 880] := by
  rw [slot_list_closed _ _ _ (by norm_num)]
  decide

/-- C8: for a teacher with a working-hours template on the date's weekday
covering `[s, e)` and no existing calendar entries, `find_free_slots` with
granularity `g` returns exactly `ceil((e − s) / g)` slots, the first at `s`,
the `i`-th at `s + i·g` (strictly increasing by `g`), all strictly before
`e` — 13:00–15:00 yields 4 slots ending 14:30 at 30 minutes and 6 slots
ending 14:40 at 20 minutes — while for a date with no matching template it
returns `none`, distinguishable from an empty sequence, rather than
raising. -/
theorem find_free_slots_spec :
    (∀ (hours : List WorkingHours) (wd g : Nat) (wh : WorkingHours),
        0 < g → WorkingHours.for_date hours wd = some wh →
        wh.start < wh.«end» →
        ∃ l, find_free_slots hours [] wd g = some l ∧
          l.length = (wh.«end» - wh.start + g - 1) / g ∧
          l.head? = some wh.start ∧
          (∀ i, ∀ hi : i < l.length, l.get ⟨i, hi⟩ = wh.start + i * g) ∧
          (∀ t ∈ l, t < wh.«end»)) ∧
    (∀ (hours : List WorkingHours) (wd g : Nat),
        WorkingHours.for_date hours wd = none →
        find_free_slots hours [] wd g = none) ∧
    find_free_slots [⟨0, 780, 900⟩] [] 0 30 = some [780, 810, 840, 870] ∧
    find_free_slots [⟨0, 780, 900⟩] [] 0 20 =
      some [780, 800, 820, 840, 860, 880] := by
  refine ⟨?_, ?_, ?_, ?_⟩
  · intro hours wd g wh hg hfd hse
    refine ⟨_, (find_free_slots_no_entries hours wd g wh hfd).trans
      (congrArg some (slot_list_closed wh.start wh.«end» g hg)), ?_, ?_, ?_, ?_⟩
    · simp
    · have hpos : 1 ≤ (wh.«end» - wh.start + g - 1) / g := by
        rw [Nat.one_le_div_iff hg]
        omega
      obtain ⟨m, hm⟩ : ∃ m, (wh.«end» - wh.start + g - 1) / g = m + 1 :=
        ⟨_, (Nat.succ_pred_eq_of_pos hpos).symm⟩
      rw [hm, List.range_succ_eq_map]
      simp
    · intro i hi
      simp only [List.get_eq_getElem, List.getElem_map, List.getElem_range]
    · intro t ht
      rw [List.mem_map] at ht
      obtain ⟨i, hir, rfl⟩ := ht
      rw [List.mem_range] at hir
      have h1 : (i + 1) * g ≤ ((wh.«end» - wh.start + g - 1) / g) * g :=
        Nat.mul_le_mul_right g (by omega)
      have h2 : ((wh.«end» - wh.start + g - 1) / g) * g ≤
          wh.«end» - wh.start + g - 1 := Nat.div_mul_le_self _ _
      have h3 : (i + 1) * g = i * g + g := by ring
      have key : i * g + g ≤ wh.«end» - wh.start + g - 1 := by
        rw [← h3]
        exact h1.trans h2
      generalize i * g = m at key ⊢
      omega
  · intro hours wd g hfd
    simp [find_free_slots, hfd]
  · rw [find_free_slots_no_entries [⟨0, 780, 900⟩] 0 30 ⟨0, 780, 900⟩ rfl,
      slot_list_concrete_30]
  · rw [find_free_slots_no_entries [⟨0, 780, 900⟩] 0 20 ⟨0, 780, 900⟩ rfl,
      slot_list_concrete_20]

/-- Witness for C8 on the 13:00–15:00 template at 30-minute granularity. -/
theorem find_free_slots_spec_witness :
    ∃ l, find_free_slots [⟨0, 780, 900⟩] [] 0 30 = some l ∧
      l.length = (900 - 780 + 30 - 1) / 30 ∧
      l.head? = some (780 : Nat) ∧
      (∀ i, ∀ hi : i < l.length, l.get ⟨i, hi⟩ = 780 + i * 30) ∧
      (∀ t ∈ l, t < 900) :=
  find_free_slots_spec.1 [⟨0, 780, 900⟩] 0 30 ⟨0, 780, 900⟩ (by norm_num) rfl
    (by norm_num)

/-- C9: a generated slot is discarded iff its half-open interval overlaps an
existing entry under `a.start < b.end ∧ b.start < a.end`: membership in the
result is exactly "generated and overlapping no entry"; concretely, on the
13:00–15:00 / 30-minute grid an entry `[14:00, 14:30)` removes exactly one
of the four slots (abutting boundaries do not exclude) while an entry
`[14:10, 14:40)` removes exactly two. -/
theorem slot_overlap_spec :
    (∀ (hours : List WorkingHours) (entries : List TimelineEntry)
        (wd g : Nat) (wh : WorkingHours) (l : List Nat),
        WorkingHours.for_date hours wd = some wh →
        find_free_slots hours entries wd g = some l →
        ∀ t, t ∈ l ↔ (t ∈ slot_list wh.start wh.«end» g ∧
          ∀ en ∈ entries, ¬(t < en.«end» ∧ en.start < t + g))) ∧
    find_free_slots [⟨0, 780, 900⟩] [⟨840, 870⟩] 0 30 = some [780, 810, 870] ∧
    find_free_slots [⟨0, 780, 900⟩] [⟨850, 880⟩] 0 30 = some [780, 810] := by
  refine ⟨?_, ?_, ?_⟩
  · intro hours entries wd g wh l hfd hfs t
    simp only [find_free_slots, hfd, Option.some.injEq] at hfs
    subst hfs
    simp only [List.mem_filter, List.all_eq_true, overlaps, Bool.not_eq_true',
      Bool.and_eq_false_iff, decide_eq_false_iff_not, not_lt]
    constructor
    · rintro ⟨hmem, hall⟩
      refine ⟨hmem, fun en hen => ?_⟩
      rcases hall en hen with h | h
      · exact fun hc => absurd hc.1 (not_lt.mpr h)
      · exact fun hc => absurd hc.2 (not_lt.mpr h)
    · rintro ⟨hmem, hno⟩
      refine ⟨hmem, fun en hen => ?_⟩
      rcases not_and_or.mp (hno en hen) with h | h
      · exact Or.inl (not_lt.mp h)
      · exact Or.inr (not_lt.mp h)
  · simp only [find_free_slots, show WorkingHours.for_date [⟨0, 780, 900⟩] 0 =
      some ⟨0, 780, 900⟩ from rfl, slot_list_concrete_30]
    decide
  · simp only [find_free_slots, show WorkingHours.for_date [⟨0, 780, 900⟩] 0 =
      some ⟨0, 780, 900⟩ from rfl, slot_list_concrete_30]
    decide

/-- Witness for C9: the 14:30 slot survives an entry ending exactly at
14:30 while the 14:00 slot is removed by it. -/
theorem slot_overlap_spec_witness :
    (870 ∈ [780, 810, 870] ↔ (870 ∈ slot_list 780 900 30 ∧
      ∀ en ∈ [(⟨840, 870⟩ : TimelineEntry)],
        ¬(870 < en.«end» ∧ en.start < 870 + 30))) ∧
    (840 ∈ [780, 810, 870] ↔ (840 ∈ slot_list 780 900 30 ∧
      ∀ en ∈ [(⟨840, 870⟩ : TimelineEntry)],
        ¬(840 < en.«end» ∧ en.start < 840 + 30))) :=
  ⟨slot_overlap_spec.1 [⟨0, 780, 900⟩] [⟨840, 870⟩] 0 30 ⟨0, 780, 900⟩
      [780, 810, 870] rfl slot_overlap_spec.2.1 870,
   slot_overlap_spec.1 [⟨0, 780, 900⟩] [⟨840, 870⟩] 0 30 ⟨0, 780, 900⟩
      [780, 810, 870] rfl slot_overlap_spec.2.1 840⟩

end Teachers

namespace Hub

theorem save_snd_timeline (db : DB) (c : Class) :
    (Class.save db c).2.is_scheduled = (Class.save db c).2.timeline_entry.isSome ∧
    (Class.save db c).2.timeline_entry.isSome = c.timeline_entry.isSome := by
  cases hte : c.timeline_entry with
  | none =>
      cases hpk : c.pk <;>
        simp [Class.save, DB.saveClassRow, hte, hpk]
  | some e =>
      cases hepk : e.pk <;> cases hpk : c.pk <;>
        simp [Class.save, DB.saveClassRow, DB.saveEntryRow, hte, hepk, hpk]

theorem save_with_some (db : DB) (c : Class) (entry : TimelineEntry)
    (hte : c.timeline_entry = some entry) :
    ∃ saved, (Class.save db c).2.timeline_entry = some saved ∧
      (Class.save db c).2.is_scheduled = true ∧
      (entry.pk.isSome = true → saved = entry) ∧
      (entry.pk = none → saved = { entry with pk := some db.nextPk } ∧
        saved ∈ (Class.save db c).1.entries) := by
  cases hepk : entry.pk with
  | some k =>
      refine ⟨entry, ?_, ?_, fun _ => rfl, ?_⟩
      · cases hpk : c.pk <;>
          simp [Class.save, DB.saveClassRow, DB.saveEntryRow, hte, hepk, hpk]
      · cases hpk : c.pk <;>
          simp [Class.save, DB.saveClassRow, DB.saveEntryRow, hte, hepk, hpk]
      · intro hn
        exact Option.noConfusion hn
  | none =>
      refine ⟨{ entry with pk := some db.nextPk }, ?_, ?_, ?_, fun _ => ⟨rfl, ?_⟩⟩
      · cases hpk : c.pk <;>
          simp [Class.save, DB.saveClassRow, DB.saveEntryRow, hte, hepk, hpk]
      · cases hpk : c.pk <;>
          simp [Class.save, DB.saveClassRow, DB.saveEntryRow, hte, hepk, hpk]
      · intro hs
        simp at hs
      · cases hpk : c.pk <;>
          simp [Class.save, DB.saveClassRow, DB.saveEntryRow, hte, hepk, hpk]

/-- C4: every save of an entitlement recomputes `is_scheduled` so that after
the persist it is true iff a timeline entry is currently attached — whatever
way the caller attached or detached the entry beforehand (the second
conjunct: saving neither attaches nor detaches). -/
theorem class_save_is_scheduled_spec (db : DB) (c : Class) :
    (Class.save db c).2.is_scheduled = (Class.save db c).2.timeline_entry.isSome ∧
    (Class.save db c).2.timeline_entry.isSome = c.timeline_entry.isSome :=
  save_snd_timeline db c

/-- C6: `can_be_scheduled` is true exactly when the entitlement is not
already scheduled, the candidate entry is free, the lesson types agree, and
the entry either fits the teacher's working hours or explicitly allows
scheduling besides working hours. -/
theorem can_be_scheduled_spec (c : Class) (entry : TimelineEntry) :
    c.can_be_scheduled entry = true ↔
      (c.is_scheduled = false ∧ entry.is_free = true ∧
        c.lesson_type = entry.lesson_type ∧
        (entry.allow_besides_working_hours = true ∨
          entry.is_fitting_working_hours = true)) := by
  unfold Class.can_be_scheduled
  cases c.is_scheduled <;> cases entry.is_free <;>
    cases entry.allow_besides_working_hours <;>
      cases entry.is_fitting_working_hours <;>
        by_cases hlt : c.lesson_type = entry.lesson_type <;>
          simp [hlt]

/-- C5: the full assignment step fails with `CannotBeScheduled` exactly when
`can_be_scheduled` is false — in particular always when the entitlement is
already scheduled — and otherwise attaches the entry (persisting it first
when it is new) and marks the entitlement scheduled. -/
theorem assign_spec (db : DB) (c : Class) (entry : TimelineEntry) :
    (c.can_be_scheduled entry = false →
        assign_and_save db c entry = Except.error HubException.CannotBeScheduled) ∧
    (c.is_scheduled = true →
        assign_and_save db c entry = Except.error HubException.CannotBeScheduled) ∧
    (c.can_be_scheduled entry = true →
        ∃ db' c' saved,
          assign_and_save db c entry = Except.ok (db', c') ∧
          c'.timeline_entry = some saved ∧
          c'.is_scheduled = true ∧
          (entry.pk.isSome = true → saved = entry) ∧
          (entry.pk = none → saved = { entry with pk := some db.nextPk } ∧
            saved ∈ db'.entries)) := by
  refine ⟨?_, ?_, ?_⟩
  · intro h
    simp [assign_and_save, Class.assign_entry, h, Except.map]
  · intro h
    have hc : c.can_be_scheduled entry = false := by
      unfold Class.can_be_scheduled
      rw [if_pos h]
    simp [assign_and_save, Class.assign_entry, hc, Except.map]
  · intro h
    have heq : assign_and_save db c entry =
        Except.ok (Class.save db { c with timeline_entry := some entry }) := by
      simp [assign_and_save, Class.assign_entry, h, Except.map]
    obtain ⟨saved, h1, h2, h3, h4⟩ :=
      save_with_some db { c with timeline_entry := some entry } entry rfl
    exact ⟨_, _, saved, by rw [heq], h1, h2, h3, h4⟩

/-- Witness for C5 at a concrete schedulable entitlement and fresh entry. -/
theorem assign_spec_witness :
    ∃ db' c' saved,
      assign_and_save emptyDB sampleClass sampleEntry = Except.ok (db', c') ∧
      c'.timeline_entry = some saved ∧
      c'.is_scheduled = true ∧
      (sampleEntry.pk.isSome = true → saved = sampleEntry) ∧
      (sampleEntry.pk = none →
        saved = { sampleEntry with pk := some emptyDB.nextPk } ∧
        saved ∈ db'.entries) :=
  (assign_spec emptyDB sampleClass sampleEntry).2.2 (by decide)

/-- C10: a failing assignment is atomic — when `can_be_scheduled` is false
the raised `CannotBeScheduled` leaves the in-memory entitlement and the
store exactly as they were, and nothing is persisted. -/
theorem assign_atomic_on_failure (db : DB) (c : Class) (entry : TimelineEntry)
    (h : c.can_be_scheduled entry = false) :
    c.assign_entry entry = Except.error HubException.CannotBeScheduled ∧
    try_assign db c entry = (db, c, some HubException.CannotBeScheduled) := by
  constructor
  · simp [Class.assign_entry, h]
  · simp [try_assign, Class.assign_entry, h]

theorem unschedule_ok (db : DB) (c : Class) (entry : TimelineEntry)
    (hte : c.timeline_entry = some entry) :
    ∃ db' c', c.unschedule db = Except.ok (db', c') ∧
      c'.timeline_entry = none ∧
      (Class.save db' c').2.is_scheduled = false ∧
      (entry ∈ db.entries → entry ∈ db'.entries) ∧
      (∀ x ∈ db.classes, x.pk ≠ c.pk → x ∈ db'.classes) := by
  simp only [Class.unschedule, hte]
  refine ⟨_, _, rfl, rfl, ?_, ?_, ?_⟩
  · rw [(save_snd_timeline _ _).1, (save_snd_timeline _ _).2]
    rfl
  · intro hmem
    cases hepk : entry.pk with
    | none =>
        simp [DB.saveEntryRow, hepk, hmem]
    | some k =>
        simp only [DB.saveEntryRow, hepk]
        exact List.mem_map.mpr ⟨entry, hmem, by simp [hepk]⟩
  · intro x hx hne
    cases hepk : entry.pk with
    | none =>
        simp only [DB.saveEntryRow, hepk]
        exact List.mem_map.mpr ⟨x, hx, by rw [if_neg (fun h => hne h.2.1)]⟩
    | some k =>
        simp only [DB.saveEntryRow, hepk]
        exact List.mem_map.mpr ⟨x, hx, by rw [if_neg (fun h => hne h.2.1)]⟩

/-- C7: `unschedule` fails with `CannotBeUnscheduled` exactly when no entry
is attached; otherwise it detaches the entitlement from its entry, persists
the entry without deleting it (rows of other entitlements are untouched, so
they keep referencing it), and clears the scheduled state — after the
detach the entitlement references no entry and its next persist stores
`is_scheduled = false`; in particular an assignment followed by `unschedule`
restores the unscheduled state. -/
theorem unschedule_spec (db : DB) (c : Class) :
    (c.timeline_entry = none →
        c.unschedule db = Except.error HubException.CannotBeUnscheduled) ∧
    (∀ entry, c.timeline_entry = some entry →
        ∃ db' c', c.unschedule db = Except.ok (db', c') ∧
          c'.timeline_entry = none ∧
          (Class.save db' c').2.is_scheduled = false ∧
          (entry ∈ db.entries → entry ∈ db'.entries) ∧
          (∀ x ∈ db.classes, x.pk ≠ c.pk → x ∈ db'.classes)) ∧
    (∀ entry, c.can_be_scheduled entry = true →
        ∀ db1 c1, assign_and_save db c entry = Except.ok (db1, c1) →
          ∃ db2 c2, c1.unschedule db1 = Except.ok (db2, c2) ∧
            c2.timeline_entry = none ∧
            (Class.save db2 c2).2.is_scheduled = false) := by
  refine ⟨?_, ?_, ?_⟩
  · intro h
    simp [Class.unschedule, h]
  · intro entry hte
    exact unschedule_ok db c entry hte
  · intro entry hcan db1 c1 hassign
    have heq : assign_and_save db c entry =
        Except.ok (Class.save db { c with timeline_entry := some entry }) := by
      simp [assign_and_save, Class.assign_entry, hcan, Except.map]
    rw [heq] at hassign
    injection hassign with hpair
    obtain ⟨saved, hsome, _, _, _⟩ :=
      save_with_some db { c with timeline_entry := some entry } entry rfl
    have hc1 : c1.timeline_entry = some saved := by
      rw [show c1 = (Class.save db { c with timeline_entry := some entry }).2 from
        congrArg Prod.snd hpair.symm]
      exact hsome
    obtain ⟨db2, c2, h1, h2, h3, _, _⟩ := unschedule_ok db1 c1 saved hc1
    exact ⟨db2, c2, h1, h2, h3⟩

/-- Witness for C7: unscheduling a concrete scheduled entitlement. -/
theorem unschedule_spec_witness :
    ∃ db' c', attachedClass.unschedule scheduledDB = Except.ok (db', c') ∧
      c'.timeline_entry = none ∧
      (Class.save db' c').2.is_scheduled = false ∧
      (attachedEntry ∈ scheduledDB.entries → attachedEntry ∈ db'.entries) ∧
      (∀ x ∈ scheduledDB.classes, x.pk ≠ attachedClass.pk → x ∈ db'.classes) :=
  (unschedule_spec scheduledDB attachedClass).2.1 attachedEntry (by rfl)

/-- Witness for C10 at a concrete already-scheduled entitlement. -/
theorem assign_atomic_on_failure_witness :
    Class.assign_entry scheduledSample sampleEntry =
      Except.error HubException.CannotBeScheduled ∧
    try_assign emptyDB scheduledSample sampleEntry =
      (emptyDB, scheduledSample, some HubException.CannotBeScheduled) :=
  assign_atomic_on_failure emptyDB scheduledSample sampleEntry (by decide)

theorem foldl_over_groups {α β : Type} (f : β → α → β) :
    ∀ (L : List (List α)) (b : β),
      L.foldl (fun acc l => l.foldl f acc) b = L.flatten.foldl f b := by
  intro L
  induction L with
  | nil => intro b; rfl
  | cons l rest ih =>
      intro b
      rw [List.flatten_cons, List.foldl_append, List.foldl_cons, ih]

theorem provision_step (s : Subscription) (lesson : Lesson) (db : DB) :
    Class.save db (s.newClass lesson) =
      ({ db with
           nextPk := db.nextPk + 1,
           classes := db.classes ++ [provisionRow s db.nextPk lesson] },
       provisionRow s db.nextPk lesson) := by
  simp [Class.save, DB.saveClassRow, Subscription.newClass, provisionRow]

theorem provision_fold (s : Subscription) :
    ∀ (L : List Lesson) (db : DB),
      L.foldl (fun dbAcc lesson => (Class.save dbAcc (s.newClass lesson)).1) db =
        { db with
            nextPk := db.nextPk + L.length,
            classes := db.classes ++ provisionRows s db.nextPk L } := by
  intro L
  induction L with
  | nil =>
      intro db
      simp [provisionRows]
  | cons lesson rest ih =>
      intro db
      rw [List.foldl_cons, congrArg Prod.fst (provision_step s lesson db), ih]
      simp only [provisionRows, DB.mk.injEq, List.append_assoc,
        List.singleton_append, List.length_cons, List.cons_append]
      refine ⟨by omega, by simp, by simp, by simp⟩

theorem add_lessons_classes (s : Subscription) (db : DB) :
    s.add_lessons_to_user db =
      { db with
          nextPk := db.nextPk + s.product.lessonUnits.length,
          classes := db.classes ++
            provisionRows s db.nextPk s.product.lessonUnits } := by
  rw [Subscription.add_lessons_to_user, foldl_over_groups]
  exact provision_fold s s.product.LESSONS.flatten db

theorem provisionRows_fields (s : Subscription) :
    ∀ (L : List Lesson) (k : Nat),
      (provisionRows s k L).length = L.length ∧
      (∀ c ∈ provisionRows s k L,
        c.buy_price = s.buy_price ∧ c.buy_source = 1 ∧
        c.customer = s.customer ∧ c.subscription = s.pk ∧ c.active = 1) ∧
      (provisionRows s k L).map (fun c => (c.lesson_type, c.lesson_id)) =
        L.map (fun l => (l.lesson_type, l.lesson_id)) := by
  intro L
  induction L with
  | nil =>
      intro k
      simp [provisionRows]
  | cons lesson rest ih =>
      intro k
      obtain ⟨h1, h2, h3⟩ := ih (k + 1)
      refine ⟨by simp [provisionRows, h1], ?_, ?_⟩
      · intro c hc
        rcases List.mem_cons.mp hc with rfl | hc
        · simp [provisionRow, Subscription.newClass]
        · exact h2 c hc
      · simp [provisionRows, provisionRow, Subscription.newClass, h3]

theorem save_preserves_classes_length (db : DB) (c : Class) (k : Nat)
    (hpk : c.pk = some k) :
    (Class.save db c).1.classes.length = db.classes.length := by
  cases hte : c.timeline_entry with
  | none =>
      simp [Class.save, DB.saveClassRow, DB.saveEntryRow, hte, hpk]
  | some e =>
      cases hepk : e.pk <;>
        simp [Class.save, DB.saveClassRow, DB.saveEntryRow, hte, hepk, hpk]

theorem cascade_fold_length (a : Nat) :
    ∀ (l : List Class) (db : DB), (∀ c ∈ l, c.pk.isSome = true) →
      (l.foldl (fun dbAcc lesson =>
        (Class.save dbAcc { lesson with active := a }).1) db).classes.length =
        db.classes.length := by
  intro l
  induction l with
  | nil =>
      intro db _
      rfl
  | cons c rest ih =>
      intro db hall
      rw [List.foldl_cons]
      obtain ⟨k, hk⟩ := Option.isSome_iff_exists.mp (hall c (by simp))
      rw [ih _ (fun x hx => hall x (by simp [hx]))]
      exact save_preserves_classes_length db _ k (by simp [hk])

theorem subscription_save_of_stored (db : DB) (s : Subscription)
    (orig : Subscription)
    (hfind : db.subscriptions.find? (fun x => x.pk == s.pk) = some orig)
    (hnew : s.pk.isNone = false) :
    Subscription.save db s =
      some ((if orig.active ≠ s.active
        then ((db.classes.filter (fun c => c.subscription == s.pk)).foldl
          (fun dbAcc lesson =>
            (Class.save dbAcc { lesson with active := s.active }).1) db)
        else db).saveSubscriptionRow s) := by
  simp only [Subscription.save, Subscription.update_classes, hnew, hfind]
  by_cases hact : orig.active ≠ s.active
  · simp [hact]
  · simp [hact]

theorem subscription_save_not_found (db : DB) (s : Subscription)
    (hfind : db.subscriptions.find? (fun x => x.pk == s.pk) = none)
    (hnew : s.pk.isNone = false) :
    Subscription.save db s = none := by
  simp [Subscription.save, Subscription.update_classes, hnew, hfind]

/-- C2: saving a subscription for the first time creates exactly one
entitlement per lesson unit of its product, stamped with the subscription's
price, `buy_source = 1` (from-subscription), the subscription's customer,
and linked to the subscription — and this provisioning runs only on first
creation: a save of an already-persisted subscription adds no entitlement
rows. -/
theorem subscription_provisioning_spec (db : DB) (s : Subscription)
    (hwf : db.WF) :
    (s.pk = none →
      ∃ db', Subscription.save db s =
          some (db', { s with pk := some db.nextPk }) ∧
        db'.classes = db.classes ++
          provisionRows { s with pk := some db.nextPk } (db.nextPk + 1)
            s.product.lessonUnits ∧
        (provisionRows { s with pk := some db.nextPk } (db.nextPk + 1)
            s.product.lessonUnits).length = s.product.lessonUnits.length ∧
        (∀ c ∈ provisionRows { s with pk := some db.nextPk } (db.nextPk + 1)
            s.product.lessonUnits,
          c.buy_price = s.buy_price ∧ c.buy_source = 1 ∧
          c.customer = s.customer ∧ c.subscription = some db.nextPk ∧
          c.active = 1) ∧
        (provisionRows { s with pk := some db.nextPk } (db.nextPk + 1)
            s.product.lessonUnits).map (fun c => (c.lesson_type, c.lesson_id)) =
          s.product.lessonUnits.map (fun l => (l.lesson_type, l.lesson_id))) ∧
    (∀ k, s.pk = some k → ∀ r, Subscription.save db s = some r →
      r.1.classes.length = db.classes.length) := by
  constructor
  · intro hpk
    have hsave : Subscription.save db s =
        some ((Subscription.add_lessons_to_user { s with pk := some db.nextPk }
            { db with
                nextPk := db.nextPk + 1,
                subscriptions :=
                  db.subscriptions ++ [{ s with pk := some db.nextPk }] },
          { s with pk := some db.nextPk }) : DB × Subscription) := by
      simp [Subscription.save, hpk, DB.saveSubscriptionRow]
    refine ⟨_, hsave.trans (by rw [add_lessons_classes]), ?_, ?_, ?_, ?_⟩
    · simp
    · exact (provisionRows_fields _ _ _).1
    · exact (provisionRows_fields _ _ _).2.1
    · exact (provisionRows_fields _ _ _).2.2
  · intro k hpk r hsave
    have hnew : s.pk.isNone = false := by rw [hpk]; rfl
    cases hfind : db.subscriptions.find? (fun x => x.pk == s.pk) with
    | none =>
        rw [subscription_save_not_found db s hfind hnew] at hsave
        cases hsave
    | some orig =>
        rw [subscription_save_of_stored db s orig hfind hnew] at hsave
        have hr := Option.some.inj hsave
        rw [← hr]
        have hrow : ∀ db1 : DB, (db1.saveSubscriptionRow s).1.classes = db1.classes := by
          intro db1
          simp [DB.saveSubscriptionRow, hpk]
        rw [hrow]
        by_cases hact : orig.active ≠ s.active
        · rw [if_pos hact]
          exact cascade_fold_length s.active _ db
            (fun c hc => ((hwf.1 c (List.mem_of_mem_filter hc)).1))
        · rw [if_neg hact]

/-- Witness for C2: provisioning a three-unit product from an empty store. -/
theorem subscription_provisioning_spec_witness :
    ∃ db', Subscription.save emptyDB sampleSub =
        some (db', { sampleSub with pk := some emptyDB.nextPk }) ∧
      db'.classes.length = 3 := by
  obtain ⟨db', hsave, hclasses, hlen, _, hmap⟩ :=
    (subscription_provisioning_spec emptyDB sampleSub (by simp [DB.WF, emptyDB])).1 rfl
  refine ⟨db', hsave, ?_⟩
  rw [hclasses, List.length_append, hlen]
  decide

theorem save_of_stored (db : DB) (c : Class) (k : Nat) (hpk : c.pk = some k)
    (hentry : c.timeline_entry.all (fun e => e.pk.isSome) = true) :
    (Class.save db c).2 = { c with is_scheduled := c.timeline_entry.isSome } ∧
    (Class.save db c).1.classes =
      db.classes.map (fun x => if x.pk = some k
        then { c with is_scheduled := c.timeline_entry.isSome } else x) := by
  cases hte : c.timeline_entry with
  | none =>
      constructor <;> simp [Class.save, DB.saveClassRow, hte, hpk]
  | some e =>
      rw [hte] at hentry
      obtain ⟨j, hj⟩ := Option.isSome_iff_exists.mp
        (by simpa [Option.all] using hentry)
      constructor <;>
        simp [Class.save, DB.saveClassRow, DB.saveEntryRow, hte, hj, hpk]

theorem stored_transform (x : Class) (a : Nat)
    (hsched : x.is_scheduled = x.timeline_entry.isSome) :
    ({ x with active := a, is_scheduled := x.timeline_entry.isSome } : Class) =
      { x with active := a } := by
  cases x
  simp_all

theorem goodClass_set_active (x : Class) (a : Nat) (h : goodClass x) :
    goodClass { x with active := a } := by
  simpa [goodClass] using h

theorem cascade_step (db : DB) (c : Class) (a : Nat) (k : Nat)
    (hpk : c.pk = some k) (hgood : goodClass c) :
    (Class.save db { c with active := a }).1.classes =
      db.classes.map (fun x => if x.pk = some k
        then { c with active := a } else x) := by
  have h := (save_of_stored db { c with active := a } k (by simpa using hpk)
    (by simpa using hgood.2.2)).2
  rw [h]
  apply List.map_congr_left
  intro x _
  by_cases hxk : x.pk = some k
  · rw [if_pos hxk, if_pos hxk]
    exact stored_transform c a hgood.2.1
  · rw [if_neg hxk, if_neg hxk]

theorem cascade_fold (a : Nat) :
    ∀ (l : List Class) (db : DB),
      (∀ c ∈ l, c ∈ db.classes) →
      (l.map Class.pk).Nodup →
      (db.classes.map Class.pk).Nodup →
      (∀ c ∈ db.classes, goodClass c) →
      (l.foldl (fun dbAcc lesson =>
        (Class.save dbAcc { lesson with active := a }).1) db).classes =
        db.classes.map (fun x =>
          if x.pk ∈ l.map Class.pk then { x with active := a } else x) := by
  intro l
  induction l with
  | nil =>
      intro db _ _ _ _
      simp
  | cons c t ih =>
      intro db hsub hl hdb hgood
      have hcmem : c ∈ db.classes := hsub c (List.mem_cons_self c t)
      have hcgood : goodClass c := hgood c hcmem
      obtain ⟨k, hk⟩ := Option.isSome_iff_exists.mp hcgood.1
      have hinj := List.inj_on_of_nodup_map hdb
      have hnotin : some k ∉ t.map Class.pk := by
        have h1 := (List.nodup_cons.mp hl).1
        rw [hk] at h1
        exact h1
      rw [List.foldl_cons]
      have hstep : (Class.save db { c with active := a }).1.classes =
          db.classes.map (fun x => if x.pk = some k
            then { x with active := a } else x) := by
        rw [cascade_step db c a k hk hcgood]
        apply List.map_congr_left
        intro x hx
        by_cases hxk : x.pk = some k
        · rw [if_pos hxk, if_pos hxk,
            hinj hx hcmem (by rw [hxk, hk])]
        · rw [if_neg hxk, if_neg hxk]
      have hsub' : ∀ x ∈ t, x ∈ (Class.save db { c with active := a }).1.classes := by
        intro x hx
        have hxmem := hsub x (List.mem_cons_of_mem c hx)
        have hxpk : x.pk ≠ some k := by
          intro he
          have hxc : x = c := hinj hxmem hcmem (by rw [he, hk])
          apply hnotin
          rw [← hk, ← hxc]
          exact List.mem_map_of_mem Class.pk hx
        rw [hstep]
        exact List.mem_map.mpr ⟨x, hxmem, by rw [if_neg hxpk]⟩
      have hpkpres : ∀ x ∈ db.classes,
          ((fun y => Class.pk y) ∘ (fun x => if x.pk = some k
            then { x with active := a } else x)) x = Class.pk x := by
        intro x _
        by_cases hxk : x.pk = some k <;> simp [hxk]
      have hdb' : ((Class.save db { c with active := a }).1.classes.map
          Class.pk).Nodup := by
        rw [hstep, List.map_map, List.map_congr_left hpkpres]
        exact hdb
      have hgood' : ∀ x ∈ (Class.save db { c with active := a }).1.classes,
          goodClass x := by
        intro x hx
        rw [hstep] at hx
        obtain ⟨y, hy, rfl⟩ := List.mem_map.mp hx
        by_cases hyk : y.pk = some k
        · rw [if_pos hyk]
          exact goodClass_set_active y a (hgood y hy)
        · rw [if_neg hyk]
          exact hgood y hy
      rw [ih _ hsub' (List.nodup_cons.mp hl).2 hdb' hgood', hstep, List.map_map]
      apply List.map_congr_left
      intro x hx
      simp only [Function.comp_apply, List.map_cons]
      by_cases hxk : x.pk = some k
      · rw [if_pos hxk]
        rw [if_neg (by simpa [hxk] using hnotin)]
        rw [if_pos (by rw [hxk, ← hk]; exact List.mem_cons_self _ _)]
      · rw [if_neg hxk]
        by_cases hxt : x.pk ∈ t.map Class.pk
        · rw [if_pos hxt, if_pos (List.mem_cons_of_mem _ hxt)]
        · rw [if_neg hxt]
          rw [if_neg (by
            intro hmem
            rcases List.mem_cons.mp hmem with h | h
            · rw [hk] at h
              exact hxk h
            · exact hxt h)]

/-- C3: saving an existing subscription whose active flag differs from the
previously stored value sets the active flag of every entitlement linked to
it (and persists them) while leaving every entitlement not linked to it —
including single-purchase classes — unchanged; when the stored value equals
the new value no entitlement row is modified. The comparison is made
against the stored row fetched from the database. -/
theorem subscription_active_cascade_spec (db : DB) (s orig : Subscription)
    (k : Nat) (hwf : db.WF) (hpk : s.pk = some k)
    (horig : db.subscriptions.find? (fun x => x.pk == s.pk) = some orig) :
    ∃ db' s', Subscription.save db s = some (db', s') ∧
      (orig.active ≠ s.active →
        db'.classes = db.classes.map (fun c =>
          if c.subscription = some k then { c with active := s.active }
          else c)) ∧
      (orig.active = s.active → db'.classes = db.classes) := by
  have hnew : s.pk.isNone = false := by rw [hpk]; rfl
  have hsave := subscription_save_of_stored db s orig horig hnew
  have hrow : ∀ db1 : DB, (db1.saveSubscriptionRow s).1.classes = db1.classes := by
    intro db1
    simp [DB.saveSubscriptionRow, hpk]
  obtain ⟨p, hp⟩ : ∃ p, Subscription.save db s = some p := ⟨_, hsave⟩
  have hp2 : p = (if orig.active ≠ s.active
      then ((db.classes.filter (fun c => c.subscription == s.pk)).foldl
        (fun dbAcc lesson =>
          (Class.save dbAcc { lesson with active := s.active }).1) db)
      else db).saveSubscriptionRow s := by
    rw [hsave] at hp
    exact (Option.some.inj hp).symm
  refine ⟨p.1, p.2, by rw [hp], fun hact => ?_, fun hact => ?_⟩
  case refine_2 =>
    rw [hp2, hrow, if_neg (fun h => h hact)]
  case refine_1 =>
    rw [hp2, hrow, if_pos hact]
    have hfsub : ∀ x ∈ db.classes.filter (fun c => c.subscription == s.pk),
        x ∈ db.classes := fun x hx => List.mem_of_mem_filter hx
    have hfnodup : ((db.classes.filter
        (fun c => c.subscription == s.pk)).map Class.pk).Nodup :=
      List.Nodup.sublist (List.Sublist.map Class.pk (List.filter_sublist _)) hwf.2
    rw [cascade_fold s.active _ db hfsub hfnodup hwf.2 hwf.1]
    have hinj := List.inj_on_of_nodup_map hwf.2
    apply List.map_congr_left
    intro x hx
    by_cases hxs : x.subscription = some k
    · rw [if_pos hxs, if_pos ?_]
      exact List.mem_map_of_mem Class.pk
        (List.mem_filter.mpr ⟨hx, by rw [hpk]; exact beq_iff_eq.mpr hxs⟩)
    · rw [if_neg hxs, if_neg ?_]
      intro hmem
      obtain ⟨y, hyf, hypk⟩ := List.mem_map.mp hmem
      obtain ⟨hymem, hyp⟩ := List.mem_filter.mp hyf
      have hyx : y = x := hinj hymem hx hypk
      apply hxs
      rw [← hyx]
      rw [hpk] at hyp
      exact beq_iff_eq.mp hyp

/-- Witness for C3: disabling a stored subscription cascades onto its one
linked entitlement and leaves the single-purchase entitlement alone. -/
theorem subscription_active_cascade_spec_witness :
    ∃ db' s', Subscription.save cascadeDB { storedSub with active := 0 } =
        some (db', s') ∧
      (storedSub.active ≠ 0 →
        db'.classes = cascadeDB.classes.map (fun c =>
          if c.subscription = some 1 then { c with active := 0 } else c)) ∧
      (storedSub.active = 0 → db'.classes = cascadeDB.classes) :=
  subscription_active_cascade_spec cascadeDB { storedSub with active := 0 }
    storedSub 1 (by decide) rfl (by rfl)

end Hub
